import Mathlib

/-!
# Verification of the gahttp dispatch core

A shallow embedding of the gahttp package (`main.go` together with the
additional source parts): a bounded-concurrency HTTP dispatcher with an
optional per-host rate limiter.

Modelling conventions:
* Go's side-effecting callbacks (`ProcFn`) are embedded in writer style: a
  callback returns the list of observable events it performs.
* `time.Duration` and timestamps are `Int` (nanoseconds); overflow is
  immaterial to every property considered here.
* The `*http.Client`, URL parsing (`url.Parse` / `http.NewRequest`) and
  `strings.Replace` are external collaborators (Go standard library); they
  appear as opaque data (`Client`) or as function parameters (`parse`,
  `replace`) that theorems quantify over.
* Sequential state passing stands in for pointer mutation: each method on
  `*Pipeline` becomes a function `Pipeline → ... → Pipeline`.
-/

/-- A parsed URL.  Only the host component is ever consulted by the code
under study (`tmpURL.Host` in `GetFromHost`, `r.req.URL.Hostname()` in the
worker loop), so the model keeps just that. -/
structure URL where
  host : String
  deriving DecidableEq, Repr

/-- Request-construction errors (`error` values returned by `url.Parse` /
`http.NewRequest`), abstracted to their message. -/
abbrev Err := String

/-- A request body (the contents behind the `io.Reader`). -/
abbrev Body := String

/-- An `*http.Request`, restricted to the fields the package reads or
writes: the HTTP method, the parsed URL, the `Host` header override set by
`GetFromHost`, and the optional body. -/
structure Request where
  method : String
  url : URL
  host : String
  body : Option Body
  deriving DecidableEq, Repr

/-- An `*http.Response`; the code under study only ever touches `resp.Body`
(to close it), so the model keeps whether a body is present. -/
structure Response where
  body : Option Body
  deriving DecidableEq, Repr

/-- Observable events performed by a callback: invocation of the wrapped
user function with a `(request, response, error)` triple, and closing a
response body (`resp.Body.Close()`). -/
inductive Event where
  | called (req : Request) (resp : Option Response) (err : Option Err)
  | bodyClosed
  deriving DecidableEq, Repr

/-- `ProcFn`: a function that processes an HTTP response.  Embedded in
writer style: it returns the list of events it performs. -/
abbrev ProcFn := Request → Option Response → Option Err → List Event

/-- An `*http.Client`; opaque to the dispatch core (only handed to
`client.Do`), so modelled as a token. -/
structure Client where
  id : Nat
  deriving DecidableEq, Repr

/-- `getDefaultClient` from main.go: some fixed default client. -/
def getDefaultClient : Client := ⟨0⟩

/-- A queued work item: `request` from main.go, wrapping the Go request and
the `ProcFn` that processes its result. -/
structure QueuedRequest where
  req : Request
  fn : ProcFn

/-- The `Pipeline` struct from main.go.  `queue` models the requests sent
on the `reqs` channel (in send order); `rlDelay` is the embedded
`rl.delay` field of the owned rate limiter; `launched` counts the worker
goroutines started by `Run` (an observable effect of `go func(){...}()`,
not a Go field). -/
structure Pipeline where
  concurrency : Int
  client : Client
  queue : List QueuedRequest
  running : Bool
  rlDelay : Int
  rateLimited : Bool
  launched : Nat

/-- `New` from main.go: a fresh pipeline for the given concurrency level,
with the default client, a fresh channel, not running, and a rate limiter
with delay 0, not rate limited. -/
def New (concurrency : Int) : Pipeline :=
  { concurrency := concurrency
    client := getDefaultClient
    queue := []
    running := false
    rlDelay := 0
    rateLimited := false
    launched := 0 }

/-- `NewWithClient` from main.go. -/
def NewWithClient (concurrency : Int) (client : Client) : Pipeline :=
  let p := New concurrency
  { p with client := client }

/-- `SetRateLimit` from main.go: no-op while running; otherwise sets the
rate-limited flag from whether the delay is zero and stores the delay in
the rate limiter. -/
def SetRateLimit (p : Pipeline) (d : Int) : Pipeline :=
  if p.running then p
  else if d = 0 then { p with rateLimited := false, rlDelay := d }
  else { p with rateLimited := true, rlDelay := d }

/-- `SetRateLimitMillis` from main.go: converts milliseconds to
nanoseconds and delegates. -/
def SetRateLimitMillis (p : Pipeline) (m : Int) : Pipeline :=
  SetRateLimit p (m * 1000000)

/-- `SetClient` from main.go: no-op while running. -/
def SetClient (p : Pipeline) (c : Client) : Pipeline :=
  if p.running then p
  else { p with client := c }

/-- `SetConcurrency` from main.go: no-op while running. -/
def SetConcurrency (p : Pipeline) (c : Int) : Pipeline :=
  if p.running then p
  else { p with concurrency := c }

/-- `Run` from main.go: no-op if already running; otherwise marks the
pipeline running and launches one worker goroutine per unit of
`concurrency` (the Go loop `for i := 0; i < p.concurrency; i++`, hence
`concurrency.toNat` workers for non-positive values). -/
def Run (p : Pipeline) : Pipeline :=
  if p.running then p
  else { p with running := true, launched := p.launched + p.concurrency.toNat }

/-- `Do` from main.go: starts the pipeline if it is not yet running, then
sends the work item on the channel (modelled as appending to `queue`). -/
def Do (p : Pipeline) (r : Request) (fn : ProcFn) : Pipeline :=
  let p1 := if !p.running then Run p else p
  { p1 with queue := p1.queue ++ [⟨r, fn⟩] }

/-- `http.NewRequest` (Go standard library, external): parses the URL with
the ambient parser and on success builds a request with the given method
and body and no `Host` override; on failure returns the parse error. -/
def NewRequest (parse : String → Except Err URL) (method : String)
    (u : String) (body : Option Body) : Except Err Request :=
  match parse u with
  | .error e => .error e
  | .ok url => .ok { method := method, url := url, host := "", body := body }

/-- Result of a convenience helper (`Get`, `Post`, `GetFromHost`): the
returned error value paired with the resulting pipeline state, or a
runtime panic (nil-pointer dereference). -/
inductive HelperResult where
  | ok (p : Pipeline)
  | err (p : Pipeline) (e : Err)
  | panic

/-- `Get` from main.go: builds a GET request for the URL; on construction
failure returns the error (the pipeline untouched), otherwise delegates to
`Do`. -/
def Get (parse : String → Except Err URL) (p : Pipeline) (u : String)
    (fn : ProcFn) : HelperResult :=
  match NewRequest parse "GET" u none with
  | .error e => .err p e
  | .ok req => .ok (Do p req fn)

/-- `Post` from main.go: builds the request for the URL with the given
body — using method "GET", exactly as the source does — and on
construction failure returns the error, otherwise delegates to `Do`. -/
def Post (parse : String → Except Err URL) (p : Pipeline) (u : String)
    (body : Body) (fn : ProcFn) : HelperResult :=
  match NewRequest parse "GET" u (some body) with
  | .error e => .err p e
  | .ok req => .ok (Do p req fn)

/-- `GetFromHost` from src/unnamed/part_004: parses the URL, replaces the
URL's host by `actualHost` in the URL string (`strings.Replace`, external,
passed as `replace`), rebuilds the request, sets the `Host` header to the
original host, and delegates to `Do`.  The source assigns `req.Host =
urlHost` BEFORE checking the error from `http.NewRequest`; when request
construction fails, `req` is nil and that assignment is a nil-pointer
dereference, modelled as `.panic`. -/
def GetFromHost (parse : String → Except Err URL)
    (replace : String → String → String → String) (p : Pipeline)
    (u actualHost : String) (fn : ProcFn) : HelperResult :=
  match parse u with
  | .error e => .err p e
  | .ok tmpURL =>
    let urlHost := tmpURL.host
    let u1 := replace u urlHost actualHost
    match NewRequest parse "GET" u1 none with
    | .error _ => .panic
    | .ok req => .ok (Do p { req with host := urlHost } fn)

/-- `CloseBody` from main.go, in the writer embedding: the returned
callback first runs the wrapped callback on the unmodified triple, then —
if the response is non-nil and its body is non-nil — closes the body. -/
def CloseBody (fn : ProcFn) : ProcFn :=
  fun req resp err =>
    fn req resp err ++
      match resp with
      | none => []
      | some r =>
        match r.body with
        | none => []
        | some _ => [Event.bodyClosed]

/-- `Wrap` from main.go: `for _, m := range middleware { fn = m(fn) }` is a
left fold of application over the middleware list. -/
def Wrap (fn : ProcFn) (middleware : List (ProcFn → ProcFn)) : ProcFn :=
  middleware.foldl (fun f m => m f) fn

/-! ## The rate limiter

main.go references `newRateLimiter`, the field `rl.delay`, and
`rl.Block(key)`, but the file defining the `rateLimiter` type is not among
the provided sources; its behaviour is modelled from the spec, §3 and
§4.1. -/

/-- The `rateLimiter`: the configured minimum delay (zero means disabled)
and a mapping from destination key to the timestamp of that key's last
permitted dispatch, lazily populated.  Modelled from the spec: the
`rateLimiter` struct is not among the provided sources. -/
structure RateLimiter where
  delay : Int
  ops : List (String × Int)

/-- Lookup of a key's last recorded timestamp in the limiter's map. -/
def lookupOp : List (String × Int) → String → Option Int
  | [], _ => none
  | (k, v) :: rest, key => if k = key then some v else lookupOp rest key

/-- Store a key's timestamp in the limiter's map (overwriting any previous
entry; entries are created lazily on first use). -/
def setOp : List (String × Int) → String → Int → List (String × Int)
  | [], key, v => [(key, v)]
  | (k, w) :: rest, key, v =>
    if k = key then (key, v) :: rest else (k, w) :: setOp rest key v

/-- `newRateLimiter` with the given delay and an empty map.  Modelled from
the spec: the `rateLimiter` constructor is not among the provided
sources. -/
def newRateLimiter (delay : Int) : RateLimiter :=
  { delay := delay, ops := [] }

/-- Modelled from the spec: `rateLimiter.Block` is not among the provided
sources.  Spec §4.1: `Block(key)` blocks the calling worker until the
elapsed time since that key's previously recorded dispatch timestamp is ≥
the configured delay, then records the current time as the new timestamp
and returns; if no prior timestamp exists it returns immediately and
records the current time; if the configured delay is zero it is a no-op
regardless of key.  The whole read-decide-write sequence is one critical
section per call (spec §4.2), so a run of the limiter is a sequence of
atomic `Block` calls.  `now` is the caller's current time; the returned
`Int` is the admission time (the moment the caller is allowed to proceed,
`max now (previous + delay)`), which is also the timestamp recorded. -/
def Block (rl : RateLimiter) (key : String) (now : Int) : RateLimiter × Int :=
  if rl.delay = 0 then (rl, now)
  else
    match lookupOp rl.ops key with
    | none => ({ rl with ops := setOp rl.ops key now }, now)
    | some t =>
      let adTime := max now (t + rl.delay)
      ({ rl with ops := setOp rl.ops key adTime }, adTime)

/-- The rate-limiting step of the worker loop body (main.go lines
163-165): `Block` is consulted only when `p.rateLimited` is set; otherwise
the worker proceeds immediately and the limiter is untouched. -/
def workerRateStep (rateLimited : Bool) (rl : RateLimiter) (key : String)
    (now : Int) : RateLimiter × Int :=
  if rateLimited then Block rl key now else (rl, now)

/-- Run a serialized sequence of `Block` calls (each element a destination
key with the caller's current time), returning the final limiter state and
the trace of admissions `(key, callTime, admitTime)` in order. -/
def runBlocks (rl : RateLimiter) :
    List (String × Int) → RateLimiter × List (String × Int × Int)
  | [] => (rl, [])
  | (key, now) :: rest =>
    let step := Block rl key now
    let tail := runBlocks step.1 rest
    (tail.1, (key, now, step.2) :: tail.2)

/-- The admissions recorded for one key, in trace order: pairs of
`(callTime, admitTime)`. -/
def admissionsFor (key : String) (trace : List (String × Int × Int)) :
    List (Int × Int) :=
  (trace.filter (fun e => e.1 = key)).map (fun e => e.2)

/-! ## The worker pool as a transition system

Claim C1 is about the concurrent worker pool (`Run`'s goroutines reading
`p.reqs` with `for r := range p.reqs`).  The channel operations are the
synchronization points, so the pool is embedded as a small-step transition
system: a state holds the channel contents (submitted, not yet received
work items, in send order), whether the channel has been closed (`Done`),
the number of workers that have not yet exited their range loop, and the
items whose callbacks have fired, in execution order.  Work items are
identified abstractly (by `Nat`). -/

/-- A snapshot of the running pool. -/
structure PoolState where
  queue : List Nat
  closed : Bool
  workers : Nat
  executed : List Nat
  deriving DecidableEq, Repr

/-- One step of the pool.  `submit` is `p.reqs <- request{r, fn}` (only
possible while the channel is open); `done` is `close(p.reqs)`; `exec` is
one worker receiving the next item from the channel and running the loop
body — executing the request and invoking its callback (receipt from a Go
channel is exclusive: the item is removed, so no other worker can run
it); `exit` is a worker observing the closed, empty channel, leaving its
range loop and calling `wg.Done()`. -/
inductive PoolStep : PoolState → PoolState → Prop
  | submit (q : List Nat) (w : Nat) (ex : List Nat) (x : Nat) :
      PoolStep ⟨q, false, w, ex⟩ ⟨q ++ [x], false, w, ex⟩
  | done (q : List Nat) (w : Nat) (ex : List Nat) :
      PoolStep ⟨q, false, w, ex⟩ ⟨q, true, w, ex⟩
  | exec (x : Nat) (q : List Nat) (c : Bool) (w : Nat) (ex : List Nat) :
      PoolStep ⟨x :: q, c, w + 1, ex⟩ ⟨q, c, w + 1, ex ++ [x]⟩
  | exit (w : Nat) (ex : List Nat) :
      PoolStep ⟨[], true, w + 1, ex⟩ ⟨[], true, w, ex⟩

/-- Any interleaving of pool steps. -/
def PoolReach : PoolState → PoolState → Prop :=
  Relation.ReflTransGen PoolStep

/-- The pool state right after `Done`: the `M` submitted items are on the
channel, the channel is closed, the `N` workers launched by `Run` are in
their loops, nothing executed yet.  (`exec` steps may in reality be
interleaved with the submissions; starting from the post-`Done` state is
without loss of generality because `exec` commutes with `submit` of later
items — the invariant proof below covers interleavings too, since the
invariant is preserved by all four step kinds.) -/
def poolAfterDone (items : List Nat) (n : Nat) : PoolState :=
  ⟨items, true, n, []⟩

/-- The invariant for exactly-once execution: the channel stays closed,
items executed so far followed by items still queued are exactly the
submitted items, and once every worker has exited the queue is empty. -/
def PoolInv (items : List Nat) (s : PoolState) : Prop :=
  s.closed = true ∧ s.executed ++ s.queue = items ∧
    (s.workers = 0 → s.queue = [])

/-- A lifecycle call in a sequence of `Do`/`Run` invocations on one
pipeline (claim C8 quantifies over such sequences). -/
inductive PipelineCall where
  | runCall
  | doCall (r : Request) (fn : ProcFn)

/-- Apply a sequence of `Do`/`Run` calls to a pipeline, in order. -/
def applyCalls (p : Pipeline) : List PipelineCall → Pipeline
  | [] => p
  | .runCall :: rest => applyCalls (Run p) rest
  | .doCall r fn :: rest => applyCalls (Do p r fn) rest

/-- A callback that records its own invocation, used to observe how a
middleware drives the function it wraps. -/
def probeFn : ProcFn := fun req resp err => [Event.called req resp err]

/-- Whether an event is an invocation of the wrapped callback. -/
def isCalled : Event → Bool
  | .called _ _ _ => true
  | .bodyClosed => false

/-! ## Supporting lemmas -/

theorem run_of_running {p : Pipeline} (h : p.running = true) : Run p = p := by
  simp [Run, h]

theorem applyCalls_of_running {p : Pipeline} (cs : List PipelineCall)
    (h : p.running = true) :
    (applyCalls p cs).launched = p.launched ∧
      (applyCalls p cs).running = true := by
  induction cs generalizing p with
  | nil => exact ⟨rfl, h⟩
  | cons c rest ih =>
    cases c with
    | runCall =>
      rw [applyCalls, run_of_running h]
      exact ih h
    | doCall r fn =>
      rw [applyCalls]
      have hDo : Do p r fn = { p with queue := p.queue ++ [⟨r, fn⟩] } := by
        simp [Do, h]
      rw [hDo]
      exact ih h

theorem lookupOp_setOp_self (ops : List (String × Int)) (k : String) (v : Int) :
    lookupOp (setOp ops k v) k = some v := by
  induction ops with
  | nil => simp [setOp, lookupOp]
  | cons hd tl ih =>
    by_cases hk : hd.1 = k
    · simp [setOp, hk, lookupOp]
    · simp only [setOp]
      rw [if_neg hk]
      simp only [lookupOp]
      rw [if_neg hk]
      exact ih

theorem lookupOp_setOp_ne (ops : List (String × Int)) (k key : String)
    (v : Int) (h : k ≠ key) :
    lookupOp (setOp ops k v) key = lookupOp ops key := by
  induction ops with
  | nil => simp [setOp, lookupOp, h]
  | cons hd tl ih =>
    by_cases hk : hd.1 = k
    · simp only [setOp]
      rw [if_pos hk]
      simp only [lookupOp]
      rw [if_neg h, if_neg (hk ▸ h)]
    · simp only [setOp]
      rw [if_neg hk]
      simp only [lookupOp]
      by_cases hkey : hd.1 = key
      · rw [if_pos hkey, if_pos hkey]
      · rw [if_neg hkey, if_neg hkey]
        exact ih

theorem Block_delay (rl : RateLimiter) (key : String) (now : Int) :
    (Block rl key now).1.delay = rl.delay := by
  by_cases h0 : rl.delay = 0
  · simp [Block, h0]
  · cases hl : lookupOp rl.ops key <;> simp [Block, h0, hl]

theorem Block_lookup_ne (rl : RateLimiter) (k key : String) (now : Int)
    (h : k ≠ key) :
    lookupOp (Block rl k now).1.ops key = lookupOp rl.ops key := by
  by_cases h0 : rl.delay = 0
  · simp [Block, h0]
  · cases hl : lookupOp rl.ops k <;>
      simp [Block, h0, hl, lookupOp_setOp_ne _ _ _ _ h]

/-! ## Claim theorems -/

/-- C4: on a running pipeline, each of `SetClient`, `SetConcurrency`,
`SetRateLimit` and `SetRateLimitMillis` is a silent no-op: it returns
normally and leaves every field of the pipeline (client, concurrency,
rate-limit delay, rate-limited flag — indeed the whole state) unchanged. -/
theorem running_setters_noop (p : Pipeline) (c : Client) (n d m : Int)
    (h : p.running = true) :
    SetClient p c = p ∧ SetConcurrency p n = p ∧ SetRateLimit p d = p ∧
      SetRateLimitMillis p m = p := by
  refine ⟨?_, ?_, ?_, ?_⟩ <;>
    simp [SetClient, SetConcurrency, SetRateLimit, SetRateLimitMillis, h]

/-- Witness for C4 at a concrete running pipeline. -/
theorem running_setters_noop_witness :
    SetClient { New 3 with running := true } ⟨1⟩ = { New 3 with running := true } ∧
    SetConcurrency { New 3 with running := true } 5 = { New 3 with running := true } ∧
    SetRateLimit { New 3 with running := true } 7 = { New 3 with running := true } ∧
    SetRateLimitMillis { New 3 with running := true } 9 = { New 3 with running := true } :=
  running_setters_noop { New 3 with running := true } ⟨1⟩ 5 7 9 rfl

/-- C9: `Wrap` is fold-composition with identity: with no middleware it
returns the callback unchanged, and appending a middleware `m` to the list
wraps the previous result in `m` — so middleware are applied in argument
order and the last middleware listed is the outermost wrapper:
`Wrap fn [m1, ..., mk] = mk (... (m1 fn) ...)`. -/
theorem wrap_is_fold_composition :
    (∀ fn : ProcFn, Wrap fn [] = fn) ∧
    (∀ (fn : ProcFn) (ms : List (ProcFn → ProcFn)) (m : ProcFn → ProcFn),
      Wrap fn (ms ++ [m]) = m (Wrap fn ms)) := by
  constructor
  · intro fn
    rfl
  · intro fn ms m
    simp [Wrap, List.foldl_append]

/-- C10: the callback returned by `CloseBody` invokes the wrapped callback
exactly once, first, with the unmodified `(request, response, error)`
triple; only afterwards does it close the response body, and it emits a
body close exactly when the response is non-nil and its body is non-nil
(when either is nil it returns without dereferencing it — the function is
total and performs no body close in those cases). -/
theorem closeBody_calls_once_then_closes (req : Request)
    (resp : Option Response) (err : Option Err) :
    ((CloseBody probeFn req resp err).filter isCalled
        = [Event.called req resp err]) ∧
    ((CloseBody probeFn req resp err).head? = some (Event.called req resp err)) ∧
    (Event.bodyClosed ∈ CloseBody probeFn req resp err ↔
      ∃ r, resp = some r ∧ r.body ≠ none) := by
  match resp with
  | none => simp [CloseBody, probeFn, isCalled]
  | some r =>
    match hb : r.body with
    | none => simp [CloseBody, probeFn, isCalled, hb]
    | some b =>
      refine ⟨by simp [CloseBody, probeFn, isCalled, hb], by simp [CloseBody, probeFn, hb], ?_⟩
      simp only [CloseBody, probeFn, hb]
      constructor
      · intro _
        exact ⟨r, rfl, by simp [hb]⟩
      · intro _
        simp

/-- C7: `Post` constructs its underlying request with method "GET" — the
same method as `Get` — and the request it hands to `Do` differs from
`Get`'s only in the attached body. -/
theorem post_uses_get_method (parse : String → Except Err URL)
    (p : Pipeline) (u : String) (url : URL) (body : Body) (fn : ProcFn)
    (h : parse u = .ok url) :
    Post parse p u body fn
        = .ok (Do p { method := "GET", url := url, host := "", body := some body } fn) ∧
    Get parse p u fn
        = .ok (Do p { method := "GET", url := url, host := "", body := none } fn) ∧
    ({ method := "GET", url := url, host := "", body := some body } : Request)
        = { ({ method := "GET", url := url, host := "", body := none } : Request)
              with body := some body } := by
  refine ⟨?_, ?_, rfl⟩ <;> simp [Post, Get, NewRequest, h]

/-- Witness for C7 at a concrete parser, URL and pipeline. -/
theorem post_uses_get_method_witness :
    Post (fun _ => .ok ⟨"h"⟩) (New 1) "http://h" "data" probeFn
        = .ok (Do (New 1) { method := "GET", url := ⟨"h"⟩, host := "", body := some "data" } probeFn) ∧
    Get (fun _ => .ok ⟨"h"⟩) (New 1) "http://h" probeFn
        = .ok (Do (New 1) { method := "GET", url := ⟨"h"⟩, host := "", body := none } probeFn) ∧
    ({ method := "GET", url := ⟨"h"⟩, host := "", body := some "data" } : Request)
        = { ({ method := "GET", url := ⟨"h"⟩, host := "", body := none } : Request)
              with body := some "data" } :=
  post_uses_get_method (fun _ => .ok ⟨"h"⟩) (New 1) "http://h" ⟨"h"⟩ "data" probeFn rfl

/-- C8: starting is lazy and idempotent.  `Run` on a running pipeline
changes nothing (and launches no additional workers); `Do` on a
not-yet-running pipeline first starts it and then enqueues; and over any
non-empty sequence of `Do`/`Run` calls on a fresh pipeline exactly
`concurrency` workers are ever launched. -/
theorem lazy_idempotent_start (c : Int) (cs : List PipelineCall)
    (hc : 1 ≤ c) (hcs : cs ≠ []) :
    (∀ p : Pipeline, p.running = true → Run p = p) ∧
    (∀ (p : Pipeline) (r : Request) (fn : ProcFn), p.running = false →
      Do p r fn = { Run p with queue := (Run p).queue ++ [⟨r, fn⟩] }) ∧
    ((applyCalls (New c) cs).launched : Int) = c := by
  refine ⟨fun p h => run_of_running h, ?_, ?_⟩
  · intro p r fn h
    simp [Do, h]
  · rw [show ∀ n : Nat, ((n : Int) = c ↔ n = c.toNat) from fun n => by omega]
    match cs with
    | [] => exact absurd rfl hcs
    | call :: rest =>
      have hfresh : (New c).running = false := rfl
      have hlaunch : (New c).launched = 0 := rfl
      cases call with
      | runCall =>
        rw [applyCalls]
        have hrun : (Run (New c)).running = true := by simp [Run, New]
        have := applyCalls_of_running rest hrun
        rw [this.1]
        simp [Run, New]
      | doCall r fn =>
        rw [applyCalls]
        have hdo : (Do (New c) r fn).running = true := by simp [Do, Run, New]
        have := applyCalls_of_running rest hdo
        rw [this.1]
        simp [Do, Run, New]

/-- Witness for C8: concurrency 2, the call sequence `[Run, Run, Do]`. -/
theorem lazy_idempotent_start_witness :
    ((∀ p : Pipeline, p.running = true → Run p = p) ∧
    (∀ (p : Pipeline) (r : Request) (fn : ProcFn), p.running = false →
      Do p r fn = { Run p with queue := (Run p).queue ++ [⟨r, fn⟩] }) ∧
    ((applyCalls (New 2)
        [.runCall, .runCall,
          .doCall { method := "GET", url := ⟨"h"⟩, host := "", body := none } probeFn]).launched : Int)
      = 2) :=
  lazy_idempotent_start 2
    [.runCall, .runCall,
      .doCall { method := "GET", url := ⟨"h"⟩, host := "", body := none } probeFn]
    (by decide) (by simp)

/-- C3: with the configured delay zero, the rate limiter never delays a
caller: `Block` is a no-op (state untouched, admission at the caller's own
current time) for every key and every recorded history; and
`SetRateLimit 0` on a not-yet-running pipeline clears the rate-limited
flag, so the worker loop's guard skips `Block` entirely. -/
theorem zero_delay_never_blocks (p : Pipeline) (rl : RateLimiter)
    (key : String) (now : Int) (hp : p.running = false) (hd : rl.delay = 0) :
    (SetRateLimit p 0).rateLimited = false ∧
    workerRateStep (SetRateLimit p 0).rateLimited rl key now = (rl, now) ∧
    Block rl key now = (rl, now) := by
  have hflag : (SetRateLimit p 0).rateLimited = false := by
    simp [SetRateLimit, hp]
  exact ⟨hflag, by simp [workerRateStep, hflag], by simp [Block, hd]⟩

/-- Witness for C3: a fresh pipeline and a limiter with delay 0 that
already holds history for the queried key. -/
theorem zero_delay_never_blocks_witness :
    (SetRateLimit (New 2) 0).rateLimited = false ∧
    workerRateStep (SetRateLimit (New 2) 0).rateLimited ⟨0, [("a", 5)]⟩ "a" 1
      = (⟨0, [("a", 5)]⟩, 1) ∧
    Block ⟨0, [("a", 5)]⟩ "a" 1 = (⟨0, [("a", 5)]⟩, 1) :=
  zero_delay_never_blocks (New 2) ⟨0, [("a", 5)]⟩ "a" 1 rfl rfl

/-- The admission times recorded for one key, in admission order. -/
def admitTimes (key : String) (trace : List (String × Int × Int)) : List Int :=
  (admissionsFor key trace).map (fun e => e.2)

theorem admitTimes_cons_self (key : String) (now adTime : Int)
    (trace : List (String × Int × Int)) :
    admitTimes key ((key, now, adTime) :: trace) = adTime :: admitTimes key trace := by
  simp [admitTimes, admissionsFor]

theorem admitTimes_cons_ne (k key : String) (now adTime : Int)
    (trace : List (String × Int × Int)) (h : k ≠ key) :
    admitTimes key ((k, now, adTime) :: trace) = admitTimes key trace := by
  simp [admitTimes, admissionsFor, h]

/-- Invariant for the spacing proof: starting from any limiter with delay
`D > 0`, the admission times for a key are spaced by at least `D`, and
when the limiter already records a timestamp `t` for the key, the first
future admission is at least `t + D`. -/
theorem runBlocks_spaced (D : Int) (hD : 0 < D) :
    ∀ (calls : List (String × Int)) (rl : RateLimiter) (key : String),
      rl.delay = D →
      (admitTimes key (runBlocks rl calls).2).Chain' (fun a b => a + D ≤ b) ∧
      (∀ t, lookupOp rl.ops key = some t →
        ∀ a ∈ (admitTimes key (runBlocks rl calls).2).head?, t + D ≤ a) := by
  intro calls
  induction calls with
  | nil =>
    intro rl key _
    exact ⟨List.chain'_nil, by simp [runBlocks, admitTimes, admissionsFor]⟩
  | cons kv rest ih =>
    intro rl key hdelay
    obtain ⟨k, now⟩ := kv
    have hD0 : rl.delay ≠ 0 := by rw [hdelay]; exact ne_of_gt hD
    have hrun : (runBlocks rl ((k, now) :: rest)).2
        = (k, now, (Block rl k now).2) :: (runBlocks (Block rl k now).1 rest).2 := by
      simp [runBlocks]
    have hdelay1 : (Block rl k now).1.delay = D := by
      rw [Block_delay, hdelay]
    by_cases hk : k = key
    · subst hk
      cases hl : lookupOp rl.ops k with
      | none =>
        have hblock : Block rl k now
            = ({ rl with ops := setOp rl.ops k now }, now) := by
          simp [Block, hD0, hl]
        have hlook1 : lookupOp (Block rl k now).1.ops k = some now := by
          rw [hblock]
          exact lookupOp_setOp_self rl.ops k now
        obtain ⟨ihChain, ihHead⟩ := ih (Block rl k now).1 k hdelay1
        have hadm : (Block rl k now).2 = now := by rw [hblock]
        rw [hrun, admitTimes_cons_self, hadm]
        constructor
        · exact List.chain'_cons'.mpr ⟨ihHead now hlook1, ihChain⟩
        · intro t ht
          exact absurd ht (by simp)
      | some t =>
        have hblock : Block rl k now
            = ({ rl with ops := setOp rl.ops k (max now (t + rl.delay)) },
                max now (t + rl.delay)) := by
          simp [Block, hD0, hl]
        have hlook1 : lookupOp (Block rl k now).1.ops k
            = some (max now (t + rl.delay)) := by
          rw [hblock]
          exact lookupOp_setOp_self _ _ _
        obtain ⟨ihChain, ihHead⟩ := ih (Block rl k now).1 k hdelay1
        have hadm : (Block rl k now).2 = max now (t + rl.delay) := by rw [hblock]
        rw [hrun, admitTimes_cons_self, hadm]
        constructor
        · exact List.chain'_cons'.mpr ⟨ihHead _ hlook1, ihChain⟩
        · intro t1 ht1
          obtain rfl : t = t1 := Option.some_injective _ ht1
          intro a ha
          simp only [List.head?_cons, Option.mem_def, Option.some_inj] at ha
          subst ha
          rw [hdelay]
          exact le_max_right _ _
    · have hlook1 : lookupOp (Block rl k now).1.ops key = lookupOp rl.ops key :=
        Block_lookup_ne rl k key now hk
      obtain ⟨ihChain, ihHead⟩ := ih (Block rl k now).1 key hdelay1
      rw [hrun, admitTimes_cons_ne k key _ _ _ hk]
      refine ⟨ihChain, fun t ht => ihHead t (by rw [hlook1]; exact ht)⟩

/-- C2: with rate limiting at delay `D > 0`, for every serialized sequence
of `Block` calls (any keys, any caller-side clock values) and every key,
the admission timestamps recorded for that key satisfy
`t[i] + D ≤ t[i+1]` for consecutive entries — and the list is already
sorted, so these are also the sorted-order gaps — regardless of which
worker performed each call (the limiter's lock serializes the
read-decide-write sequences, which the call list enumerates). -/
theorem rate_limit_spacing (D : Int) (calls : List (String × Int))
    (key : String) (hD : 0 < D) :
    (admitTimes key (runBlocks (newRateLimiter D) calls).2).Chain'
        (fun a b => a + D ≤ b) ∧
    (admitTimes key (runBlocks (newRateLimiter D) calls).2).Sorted (· ≤ ·) := by
  obtain ⟨hchain, -⟩ := runBlocks_spaced D hD calls (newRateLimiter D) key rfl
  refine ⟨hchain, ?_⟩
  haveI : IsTrans Int (fun a b => a + D ≤ b) :=
    ⟨fun a b c hab hbc => by omega⟩
  exact List.Pairwise.imp (fun h => by omega) (List.chain'_iff_pairwise.mp hchain)

/-- Witness for C2: delay 10, calls for keys "a" and "b" arriving in close
succession; admissions for "a" land at 0, 10, 20. -/
theorem rate_limit_spacing_witness :
    (admitTimes "a"
        (runBlocks (newRateLimiter 10) [("a", 0), ("a", 3), ("b", 4), ("a", 5)]).2).Chain'
        (fun a b => a + 10 ≤ b) ∧
    (admitTimes "a"
        (runBlocks (newRateLimiter 10) [("a", 0), ("a", 3), ("b", 4), ("a", 5)]).2).Sorted (· ≤ ·) :=
  rate_limit_spacing 10 [("a", 0), ("a", 3), ("b", 4), ("a", 5)] "a" (by decide)

theorem admissionsFor_cons_self (key : String) (now adTime : Int)
    (trace : List (String × Int × Int)) :
    admissionsFor key ((key, now, adTime) :: trace)
      = (now, adTime) :: admissionsFor key trace := by
  simp [admissionsFor]

theorem admissionsFor_cons_ne (k key : String) (now adTime : Int)
    (trace : List (String × Int × Int)) (h : k ≠ key) :
    admissionsFor key ((k, now, adTime) :: trace) = admissionsFor key trace := by
  simp [admissionsFor, h]

/-- Two limiter states that agree on the delay and on one key's recorded
timestamp handle that key's next call identically, and stay in
agreement. -/
theorem Block_congr_key (rl1 rl2 : RateLimiter) (k : String) (now : Int)
    (hdelay : rl1.delay = rl2.delay)
    (hlook : lookupOp rl1.ops k = lookupOp rl2.ops k) :
    (Block rl1 k now).2 = (Block rl2 k now).2 ∧
    (Block rl1 k now).1.delay = (Block rl2 k now).1.delay ∧
    lookupOp (Block rl1 k now).1.ops k = lookupOp (Block rl2 k now).1.ops k := by
  have hdelay2 : rl2.delay = rl1.delay := hdelay.symm
  by_cases h0 : rl1.delay = 0
  · have h02 : rl2.delay = 0 := by rw [hdelay2, h0]
    simp [Block, h0, h02, hdelay, hlook]
  · have h02 : rl2.delay ≠ 0 := by rw [hdelay2]; exact h0
    cases hl : lookupOp rl1.ops k with
    | none =>
      have hl2 : lookupOp rl2.ops k = none := by rw [← hlook]; exact hl
      simp [Block, h0, h02, hl, hl2, lookupOp_setOp_self, hdelay]
    | some t =>
      have hl2 : lookupOp rl2.ops k = some t := by rw [← hlook]; exact hl
      simp [Block, h0, h02, hl, hl2, lookupOp_setOp_self, hdelay]

/-- Runs of the limiter from two states agreeing on a key `B` — the
second run seeing only `B`'s calls — produce identical admission records
for `B`. -/
theorem runBlocks_key_local (B : String) :
    ∀ (calls : List (String × Int)) (rl1 rl2 : RateLimiter),
      rl1.delay = rl2.delay → lookupOp rl1.ops B = lookupOp rl2.ops B →
      admissionsFor B (runBlocks rl1 calls).2
        = admissionsFor B (runBlocks rl2 (calls.filter (fun c => c.1 = B))).2 := by
  intro calls
  induction calls with
  | nil =>
    intro rl1 rl2 _ _
    simp [runBlocks, admissionsFor]
  | cons kv rest ih =>
    intro rl1 rl2 hdelay hlook
    obtain ⟨k, now⟩ := kv
    have hrun1 : (runBlocks rl1 ((k, now) :: rest)).2
        = (k, now, (Block rl1 k now).2) :: (runBlocks (Block rl1 k now).1 rest).2 := by
      simp [runBlocks]
    by_cases hk : k = B
    · subst hk
      obtain ⟨hadm, hdelay1, hlook1⟩ := Block_congr_key rl1 rl2 k now hdelay hlook
      have hfilter : ((k, now) :: rest).filter (fun c => c.1 = k)
          = (k, now) :: rest.filter (fun c => c.1 = k) := by
        simp [List.filter]
      have hrun2 : (runBlocks rl2 ((k, now) :: rest.filter (fun c => c.1 = k))).2
          = (k, now, (Block rl2 k now).2)
              :: (runBlocks (Block rl2 k now).1 (rest.filter (fun c => c.1 = k))).2 := by
        simp [runBlocks]
      rw [hrun1, hfilter, hrun2, admissionsFor_cons_self, admissionsFor_cons_self, hadm]
      exact congrArg _ (ih (Block rl1 k now).1 (Block rl2 k now).1 hdelay1 hlook1)
    · have hdelay1 : (Block rl1 k now).1.delay = rl2.delay := by
        rw [Block_delay]; exact hdelay
      have hlook1 : lookupOp (Block rl1 k now).1.ops B = lookupOp rl2.ops B := by
        rw [Block_lookup_ne rl1 k B now hk]; exact hlook
      have hfilter : ((k, now) :: rest).filter (fun c => c.1 = B)
          = rest.filter (fun c => c.1 = B) := by
        simp [List.filter, hk]
      rw [hrun1, admissionsFor_cons_ne k B _ _ _ hk, hfilter]
      exact ih (Block rl1 k now).1 rl2 hdelay1 hlook1

/-- C6: distinct destination keys never delay one another.  For any key
`B`, the admission records for `B` — each a `(callTime, admitTime)` pair,
so in particular the delay `admitTime - callTime` imposed on each call —
are the same whether the limiter processes the full call history or only
the calls for `B`: removing or varying every other key's calls (key `A`'s
among them) leaves `B`'s admissions unchanged. -/
theorem cross_key_independence (rl : RateLimiter)
    (calls : List (String × Int)) (B : String) :
    admissionsFor B (runBlocks rl calls).2
      = admissionsFor B (runBlocks rl (calls.filter (fun c => c.1 = B))).2 :=
  runBlocks_key_local B calls rl rl rfl rfl

/-! ## The exactly-once property of the worker pool -/

theorem poolStep_inv (items : List Nat) {s t : PoolState}
    (hst : PoolStep s t) (hs : PoolInv items s) : PoolInv items t := by
  cases hst with
  | submit q w ex x => exact absurd hs.1 (by simp)
  | done q w ex => exact absurd hs.1 (by simp)
  | exec x q c w ex =>
    obtain ⟨hc, hq, -⟩ := hs
    exact ⟨hc, by simpa using hq, by simp⟩
  | exit w ex =>
    obtain ⟨hc, hq, -⟩ := hs
    exact ⟨hc, hq, fun _ => rfl⟩

theorem poolReach_inv (items : List Nat) {s t : PoolState}
    (h : PoolReach s t) (hs : PoolInv items s) : PoolInv items t := by
  induction h with
  | refl => exact hs
  | tail _ hstep ih => exact poolStep_inv items hstep ih

/-- C1: exactly-once execution.  For every concurrency level `N ≥ 1` and
list of submitted items, in any state the pool can reach from the
post-`Done` state in which every worker has exited (the condition under
which `Wait` returns), the executed items are exactly the submitted ones —
each item's callback has fired exactly once, no item was dropped on close
and none ran twice.  Execution happens only in `exec` steps, i.e. always
inside a worker's loop body. -/
theorem pool_executes_each_item_exactly_once (n : Nat) (items : List Nat)
    (s : PoolState) (hn : 1 ≤ n)
    (hreach : PoolReach (poolAfterDone items n) s)
    (hdone : s.workers = 0) : s.executed = items := by
  have hinit : PoolInv items (poolAfterDone items n) := by
    refine ⟨rfl, by simp [poolAfterDone], fun h0 => ?_⟩
    have hn0 : n = 0 := h0
    exact absurd hn0 (by omega)
  have hinv := poolReach_inv items hreach hinit
  have hq : s.queue = [] := hinv.2.2 hdone
  have := hinv.2.1
  rw [hq, List.append_nil] at this
  exact this

/-- Witness for C1: one worker, two items, the run that executes both and
then exits. -/
theorem pool_executes_each_item_exactly_once_witness :
    (PoolState.mk [] true 0 [7, 8]).executed = [7, 8] :=
  pool_executes_each_item_exactly_once 1 [7, 8] ⟨[], true, 0, [7, 8]⟩
    (by decide)
    (Relation.ReflTransGen.head (PoolStep.exec 7 [8] true 0 [])
      (Relation.ReflTransGen.head (PoolStep.exec 8 [] true 0 [7])
        (Relation.ReflTransGen.head (PoolStep.exit 0 [7, 8])
          Relation.ReflTransGen.refl)))
    rfl

/-! ## Request-construction failure in the convenience helpers

Concrete external collaborators agreeing with the Go standard library on
the inputs of interest, checked by hand against Go:
`url.Parse("http://h/x")` succeeds with `Host = "h"`;
`strings.Replace("http://h/x", "h", "%", -1)` replaces every `"h"` —
including the one in `"http"` — giving `"%ttp://%/x"`; and
`url.Parse("%ttp://%/x")` (hence `http.NewRequest` on it) fails with an
invalid-URL-escape error (`"%tt"` is not a valid percent escape). -/

def parseDemo : String → Except Err URL := fun s =>
  if s = "http://h/x" then .ok ⟨"h"⟩ else .error "invalid URL escape"

def replaceDemo : String → String → String → String := fun s pat rep =>
  if s = "http://h/x" ∧ pat = "h" ∧ rep = "%" then "%ttp://%/x" else s

/-- C5: `Get` and `Post` do surface a request-construction failure as
their return value with the pipeline untouched (nothing enqueued, no
callback run, the item never reaches a worker) — but `GetFromHost` does
not always: at the concrete input `u = "http://h/x"`, `actualHost = "%"`
the initial `url.Parse` succeeds, the host-substituted URL string
`"%ttp://%/x"` makes `http.NewRequest` fail, and the source assigns
`req.Host = urlHost` on the nil `req` before checking that error — a
nil-pointer dereference (crash) instead of a returned error. -/
theorem helpers_construction_failure (p : Pipeline) (fn : ProcFn)
    (hu : parseDemo "bad url" = .error "invalid URL escape") :
    Get parseDemo p "bad url" fn = .err p "invalid URL escape" ∧
    Post parseDemo p "bad url" "body" fn = .err p "invalid URL escape" ∧
    GetFromHost parseDemo replaceDemo p "http://h/x" "%" fn = .panic := by
  refine ⟨?_, ?_, ?_⟩
  · simp [Get, NewRequest, hu]
  · simp [Post, NewRequest, hu]
  · rfl

/-- Witness for C5 at a concrete pipeline and callback. -/
theorem helpers_construction_failure_witness :
    Get parseDemo (New 1) "bad url" probeFn = .err (New 1) "invalid URL escape" ∧
    Post parseDemo (New 1) "bad url" "body" probeFn = .err (New 1) "invalid URL escape" ∧
    GetFromHost parseDemo replaceDemo (New 1) "http://h/x" "%" probeFn = .panic :=
  helpers_construction_failure (New 1) probeFn rfl
